import Mathlib

/-!
Shallow embedding of the timestamp parser of `src/lib.rs` (crate `cli-helpers`).

The parser (`Timestamp::from_str`) tries, in order:
1. parsing the whole input as an `i64`, interpreted as epoch seconds when
   `n < S_TO_MS_CUTOFF` and as epoch milliseconds otherwise;
2. parsing the input, after rewriting "CET" to "+0100" and "CEST" to "+0200"
   (`tz_name_to_offset`), against the fixed format `%a %b %e %I:%M:%S %p %z %Y`;
and otherwise returns `Error::InvalidTimestamp` carrying the original input.

The date/time library (chrono) is an external collaborator; its operations used
by the source (`Utc.timestamp_opt`, `Utc.timestamp_millis_opt`,
`DateTime::parse_from_str` with the fixed en-US format) are modelled here from
their documented semantics: instants are counted in seconds (plus a nanosecond
subsecond field) from the Unix epoch in the proleptic Gregorian calendar, and
the representable range of chrono (>= 0.4.32) is years -262143..=262142, i.e.
epoch seconds in [-8334601315200, 8210266876799].
-/

namespace CliHelpers

/-- Model of `DateTime<Utc>` as wrapped by `struct Timestamp`: an instant as
whole seconds since the Unix epoch plus a nanosecond subsecond component. -/
structure Timestamp where
  secs : Int
  nanos : Nat
deriving DecidableEq, Repr

/-- `const S_TO_MS_CUTOFF: i64 = 1000000000000;` (line 33). -/
def S_TO_MS_CUTOFF : Int := 1000000000000

/-- Epoch seconds of chrono's minimum instant (`-262143-01-01T00:00:00Z`). -/
def MIN_TIMESTAMP_SECS : Int := -8334601315200

/-- Epoch seconds of chrono's maximum instant (`262142-12-31T23:59:59Z`). -/
def MAX_TIMESTAMP_SECS : Int := 8210266876799

/-- Largest epoch-millisecond value accepted by `timestamp_millis_opt`:
`MAX_TIMESTAMP_SECS * 1000 + 999`. -/
def MAX_TIMESTAMP_MS : Int := 8210266876799999

/-- Model of `Utc.timestamp_opt(secs, nanos).single()`: succeeds exactly when
the seconds value lies in chrono's representable range (the nanosecond argument
must be below 2_000_000_000; leap-second values up to that bound are allowed). -/
def timestamp_opt (secs : Int) (nanos : Nat) : Option Timestamp :=
  if MIN_TIMESTAMP_SECS ≤ secs ∧ secs ≤ MAX_TIMESTAMP_SECS ∧ nanos < 2000000000 then
    some ⟨secs, nanos⟩
  else
    none

/-- Model of `Utc.timestamp_millis_opt(ms).single()`: chrono splits the
millisecond count with Euclidean division into whole seconds and a
(nonnegative) millisecond remainder converted to nanoseconds. -/
def timestamp_millis_opt (ms : Int) : Option Timestamp :=
  timestamp_opt (ms / 1000) ((ms % 1000).toNat * 1000000)

/-- The numeric value of an ASCII decimal digit character. -/
def charDigit (c : Char) : Nat := c.toNat - 48

/-- Value of a nonempty all-ASCII-digit character list read in base 10
(the digit-accumulation loop of Rust's integer `FromStr`). -/
def decDigitsVal (l : List Char) : Option Nat :=
  if l ≠ [] ∧ l.all Char.isDigit then
    some (l.foldl (fun a c => 10 * a + charDigit c) 0)
  else
    none

def I64_MIN : Int := -9223372036854775808
def I64_MAX : Int := 9223372036854775807

/-- Range check of Rust's `i64` parsing (overflow during accumulation is an
error; equivalently the mathematical value must fit in `i64`). -/
def i64_inRange (n : Int) : Option Int :=
  if I64_MIN ≤ n ∧ n ≤ I64_MAX then some n else none

/-- Model of `s.parse::<i64>()` (`from_str` line 91): an optional single `+` or
`-` sign followed by one or more ASCII digits, the whole string consumed, and
the resulting value within the `i64` range. -/
def i64_from_str (s : String) : Option Int :=
  match s.data with
  | [] => none
  | c :: rest =>
    if c = '-' then (decDigitsVal rest).bind fun v => i64_inRange (-(v : Int))
    else if c = '+' then (decDigitsVal rest).bind fun v => i64_inRange (v : Int)
    else (decDigitsVal (c :: rest)).bind fun v => i64_inRange (v : Int)

/-- The ASCII character of a decimal digit. -/
def digitChar (d : Nat) : Char := Char.ofNat (48 + d)

/-- Big-endian decimal digit characters of `n` (auxiliary, fuel-driven so that
it is structurally recursive; `fuel ≥ n` suffices since `n / 10 < n`). -/
def natDecCharsAux : Nat → Nat → List Char
  | 0, _ => []
  | fuel + 1, n =>
    if n = 0 then [] else natDecCharsAux fuel (n / 10) ++ [digitChar (n % 10)]

/-- Big-endian decimal digit characters of a natural number. -/
def natDecChars (n : Nat) : List Char := natDecCharsAux n n

/-- The decimal string of an integer (minus sign for negative values, no sign
otherwise, no leading zeros). -/
def intDecString (n : Int) : String :=
  if n = 0 then "0"
  else if n < 0 then String.mk ('-' :: natDecChars n.natAbs)
  else String.mk (natDecChars n.natAbs)

/-- Auxiliary loop of `str::replace`: scan left to right, replacing each
leftmost non-overlapping occurrence of the (nonempty) pattern `p :: ps` by
`rep`. Fuel-driven structural recursion; `fuel ≥ l.length` suffices because
every step consumes at least one character of `l`. -/
def replaceAllAux (p : Char) (ps rep : List Char) : Nat → List Char → List Char
  | 0, l => l
  | _ + 1, [] => []
  | fuel + 1, c :: rest =>
    if (p :: ps).isPrefixOf (c :: rest) then
      rep ++ replaceAllAux p ps rep fuel (rest.drop ps.length)
    else
      c :: replaceAllAux p ps rep fuel rest

/-- Model of Rust's `str::replace(pat, rep)`: replace all leftmost
non-overlapping occurrences of `pat` by `rep`. -/
def replaceAll (pat rep l : List Char) : List Char :=
  match pat with
  | [] => l
  | p :: ps => replaceAllAux p ps rep l.length l

def CET : List Char := ['C', 'E', 'T']
def CEST : List Char := ['C', 'E', 'S', 'T']

/-- `fn tz_name_to_offset(input: &str) -> String` (lines 111-113):
`input.replace("CET", "+0100").replace("CEST", "+0200")`. -/
def tz_name_to_offset (s : String) : String :=
  String.mk (replaceAll CEST "+0200".data (replaceAll CET "+0100".data s.data))

/-- `pat` occurs as a contiguous substring of the list. -/
def containsSub (pat : List Char) : List Char → Bool
  | [] => pat.isEmpty
  | c :: rest => pat.isPrefixOf (c :: rest) || containsSub pat rest

/-! ### Model of `DateTime::parse_from_str` with format `%a %b %e %I:%M:%S %p %z %Y`

`const TIMESTAMP_FMT_EN_US: &str = "%a %b %e %I:%M:%S %p %z %Y";` (line 32).
The format items are: short weekday name, whitespace, short month name,
whitespace, day of month (up to 2 digits), whitespace, 12-hour clock hour,
literal `:`, minute, literal `:`, second, whitespace, AM/PM marker, whitespace,
numeric UTC offset `±HHMM` (an optional colon between hours and minutes),
whitespace, year. A whitespace format item matches any run of whitespace
(including none), numeric fields skip leading whitespace, names are matched
case-insensitively, and the whole input must be consumed. The parsed fields
are then resolved: the date must exist in the proleptic Gregorian calendar
within chrono's year range, the parsed weekday must agree with the date, and
the resulting UTC instant (local time minus offset) must be representable. -/

def TIMESTAMP_FMT_EN_US : String := "%a %b %e %I:%M:%S %p %z %Y"

def skipSpaces (l : List Char) : List Char := l.dropWhile Char.isWhitespace

/-- Scan up to `maxW` leading ASCII digits, returning the accumulated value,
the number of digits consumed, and the rest of the input. -/
def takeDigits : Nat → Nat → Nat → List Char → Nat × Nat × List Char
  | 0, acc, cnt, l => (acc, cnt, l)
  | _ + 1, acc, cnt, [] => (acc, cnt, [])
  | maxW + 1, acc, cnt, c :: r =>
    if c.isDigit then takeDigits maxW (10 * acc + charDigit c) (cnt + 1) r
    else (acc, cnt, c :: r)

/-- Numeric format item: skip leading whitespace, then require between one and
`maxW` digits. -/
def parseNum (maxW : Nat) (l : List Char) : Option (Nat × List Char) :=
  let l := skipSpaces l
  let (v, cnt, rest) := takeDigits maxW 0 0 l
  if cnt = 0 then none else some (v, rest)

def weekdayTable : List (List Char × Nat) :=
  [(['m','o','n'], 0), (['t','u','e'], 1), (['w','e','d'], 2), (['t','h','u'], 3),
   (['f','r','i'], 4), (['s','a','t'], 5), (['s','u','n'], 6)]

def monthTable : List (List Char × Nat) :=
  [(['j','a','n'], 1), (['f','e','b'], 2), (['m','a','r'], 3), (['a','p','r'], 4),
   (['m','a','y'], 5), (['j','u','n'], 6), (['j','u','l'], 7), (['a','u','g'], 8),
   (['s','e','p'], 9), (['o','c','t'], 10), (['n','o','v'], 11), (['d','e','c'], 12)]

/-- Match a three-letter name case-insensitively against a table. -/
def parseName3 (table : List (List Char × Nat)) : List Char → Option (Nat × List Char)
  | a :: b :: c :: r =>
    (table.find? fun p => p.1 == [a.toLower, b.toLower, c.toLower]).map
      fun p => (p.2, r)
  | _ => none

/-- `%p`: the AM/PM marker, case-insensitive; `true` means PM. -/
def parseAmPm : List Char → Option (Bool × List Char)
  | a :: b :: r =>
    if a.toLower = 'a' ∧ b.toLower = 'm' then some (false, r)
    else if a.toLower = 'p' ∧ b.toLower = 'm' then some (true, r)
    else none
  | _ => none

/-- `%z`: skip whitespace, then a mandatory `+`/`-` sign, two hour digits, an
optional run of colons/whitespace, two minute digits; the offset (in seconds)
must describe less than a day and the minutes at most 59. -/
def parseOffset (l : List Char) : Option (Int × List Char) :=
  match skipSpaces l with
  | s :: h1 :: h2 :: r =>
    if (s = '+' ∨ s = '-') ∧ h1.isDigit ∧ h2.isDigit then
      match (h1 :: h2 :: r).drop 2 |>.dropWhile (fun c => c = ':' ∨ c.isWhitespace) with
      | m1 :: m2 :: r2 =>
        if m1.isDigit ∧ m2.isDigit then
          let hh := 10 * charDigit h1 + charDigit h2
          let mm := 10 * charDigit m1 + charDigit m2
          let secsAbs := hh * 3600 + mm * 60
          if mm ≤ 59 ∧ secsAbs < 86400 then
            some (if s = '-' then -(secsAbs : Int) else (secsAbs : Int), r2)
          else none
        else none
      | _ => none
    else none
  | _ => none

/-- `%Y`: skip whitespace; an optional sign allows an unbounded digit count,
otherwise up to four digits. -/
def parseYear (l : List Char) : Option (Int × List Char) :=
  match skipSpaces l with
  | '-' :: r => (parseNum r.length ('0' :: r)).map fun p => (-(p.1 : Int), p.2)
  | '+' :: r => (parseNum r.length ('0' :: r)).map fun p => ((p.1 : Int), p.2)
  | l' => (parseNum 4 l').map fun p => ((p.1 : Int), p.2)

/-- Literal format character: must match the input exactly. -/
def expectChar (c : Char) : List Char → Option (List Char)
  | d :: r => if d = c then some r else none
  | [] => none

/-- Chrono's year range (chrono >= 0.4.32). -/
def MIN_YEAR : Int := -262143
def MAX_YEAR : Int := 262142

def isLeapYear (y : Int) : Bool := y % 4 = 0 ∧ (y % 100 ≠ 0 ∨ y % 400 = 0)

def daysInMonth (y : Int) (m : Nat) : Nat :=
  if m = 2 then (if isLeapYear y then 29 else 28)
  else if m = 4 ∨ m = 6 ∨ m = 9 ∨ m = 11 then 30
  else 31

/-- Days from 1970-01-01 to the given proleptic-Gregorian date
(Howard Hinnant's `days_from_civil`). -/
def daysFromCivil (y : Int) (m d : Nat) : Int :=
  let y' : Int := if m ≤ 2 then y - 1 else y
  let era : Int := y'.fdiv 400
  let yoe : Int := y' - era * 400
  let mp : Nat := (m + 9) % 12
  let doy : Nat := (153 * mp + 2) / 5 + (d - 1)
  let doe : Int := yoe * 365 + yoe.fdiv 4 - yoe.fdiv 100 + (doy : Int)
  era * 146097 + doe - 719468

/-- Weekday of a date, 0 = Monday .. 6 = Sunday (1970-01-01 is a Thursday). -/
def weekdayOf (y : Int) (m d : Nat) : Int := (daysFromCivil y m d + 3) % 7

/-- The fields collected while scanning the format items of
`TIMESTAMP_FMT_EN_US` (chrono's `Parsed` restricted to this format). -/
structure CalFields where
  wd : Nat
  mon : Nat
  day : Nat
  h12 : Nat
  mi : Nat
  sec : Nat
  pm : Bool
  off : Int
  year : Int
deriving DecidableEq, Repr

/-- Format items `%a %b %e %I:%M:%S` (the leading part of the format). -/
def parseDatePart (l : List Char) : Option (Nat × Nat × Nat × Nat × Nat × Nat × List Char) := do
  let (wd, l) ← parseName3 weekdayTable l
  let (mon, l) ← parseName3 monthTable (skipSpaces l)
  let (day, l) ← parseNum 2 (skipSpaces l)
  let (h12, l) ← parseNum 2 (skipSpaces l)
  let (mi, l) ← parseNum 2 (← expectChar ':' l)
  let (sec, l) ← parseNum 2 (← expectChar ':' l)
  pure (wd, mon, day, h12, mi, sec, l)

/-- Format items `%p %z %Y` (the trailing part of the format); the whole
remaining input must be consumed. -/
def parseTailPart (l : List Char) : Option (Bool × Int × Int) := do
  let (pm, l) ← parseAmPm (skipSpaces l)
  let (off, l) ← parseOffset (skipSpaces l)
  let (year, l) ← parseYear (skipSpaces l)
  if l = [] then pure (pm, off, year) else none

/-- Scan the whole format against the input, collecting the fields. -/
def parseFields (l : List Char) : Option CalFields := do
  let (wd, mon, day, h12, mi, sec, l) ← parseDatePart l
  let (pm, off, year) ← parseTailPart l
  pure ⟨wd, mon, day, h12, mi, sec, pm, off, year⟩

/-- Resolve parsed fields to a UTC instant (chrono's `Parsed::to_datetime`
followed by the conversion to `DateTime<Utc>`): field ranges are checked, the
date must exist in the proleptic Gregorian calendar within chrono's year
range, the parsed weekday must agree with the date, and the instant (local
time minus offset) must be representable. A second value of 60 denotes a leap
second, carried in the nanosecond field. -/
def resolveFields (f : CalFields) : Option Timestamp :=
  if 1 ≤ f.h12 ∧ f.h12 ≤ 12 ∧ f.mi ≤ 59 ∧ f.sec ≤ 60 ∧
      MIN_YEAR ≤ f.year ∧ f.year ≤ MAX_YEAR ∧
      1 ≤ f.day ∧ f.day ≤ daysInMonth f.year f.mon ∧
      weekdayOf f.year f.mon f.day = (f.wd : Int) then
    let hour : Nat := f.h12 % 12 + (if f.pm then 12 else 0)
    let localSecs : Int :=
      daysFromCivil f.year f.mon f.day * 86400 +
        ((hour * 3600 + f.mi * 60 + min f.sec 59 : Nat) : Int)
    let instant : Int := localSecs - f.off
    if MIN_TIMESTAMP_SECS ≤ instant ∧ instant ≤ MAX_TIMESTAMP_SECS then
      some ⟨instant, if f.sec = 60 then 1000000000 else 0⟩
    else none
  else none

/-- Model of `DateTime::parse_from_str(s, TIMESTAMP_FMT_EN_US)` followed by the
conversion to `DateTime<Utc>`. -/
def parseEnUs (l : List Char) : Option Timestamp :=
  (parseFields l).bind resolveFields

/-- `enum Error` (lines 35-41). The `Logger` variant wraps a foreign
`log::SetLoggerError`, opaque here; `InvalidTimestamp` carries the offending
input string. -/
inductive Error where
  | Logger : Error
  | InvalidTimestamp : String → Error
deriving DecidableEq, Repr

/-- The second decoding strategy (the `or_else` closure of lines 101-105):
parse the `tz_name_to_offset`-substituted input against the fixed format. -/
def fromStrFallback (s : String) : Option Timestamp :=
  parseEnUs (tz_name_to_offset s).data

/-- The first decoding strategy (lines 91-100): parse as `i64`, then classify
by comparison with `S_TO_MS_CUTOFF` into epoch seconds or epoch milliseconds. -/
def intAttempt (s : String) : Option Timestamp :=
  (i64_from_str s).bind fun timestamp_n =>
    if timestamp_n < S_TO_MS_CUTOFF then timestamp_opt timestamp_n 0
    else timestamp_millis_opt timestamp_n

/-- `impl FromStr for Timestamp`, `fn from_str` (lines 90-107). -/
def from_str (s : String) : Except Error Timestamp :=
  match (intAttempt s).orElse (fun _ => fromStrFallback s) with
  | some t => Except.ok t
  | none => Except.error (Error.InvalidTimestamp s)

/-! ### Round-trip between the decimal renderer and the `i64` parser -/

theorem charDigit_digitChar {d : Nat} (h : d < 10) : charDigit (digitChar d) = d := by
  interval_cases d <;> decide

theorem isDigit_digitChar {d : Nat} (h : d < 10) : (digitChar d).isDigit = true := by
  interval_cases d <;> decide

theorem natDecCharsAux_eq (fuel : Nat) : ∀ n : Nat, n ≤ fuel →
    natDecCharsAux fuel n = ((Nat.digits 10 n).reverse).map digitChar := by
  induction fuel with
  | zero =>
    intro n hn
    interval_cases n
    simp [natDecCharsAux]
  | succ fuel ih =>
    intro n hn
    by_cases hz : n = 0
    · subst hz; simp [natDecCharsAux]
    · rw [natDecCharsAux, if_neg hz,
        Nat.digits_def' (by norm_num : 1 < 10) (Nat.pos_of_ne_zero hz),
        ih (n / 10) (by omega)]
      simp

theorem natDecChars_eq (n : Nat) :
    natDecChars n = ((Nat.digits 10 n).reverse).map digitChar :=
  natDecCharsAux_eq n n le_rfl

theorem foldr_charDigit_eq_ofDigits :
    ∀ L : List Nat, (∀ d ∈ L, d < 10) →
      L.foldr (fun d a => 10 * a + charDigit (digitChar d)) 0 = Nat.ofDigits 10 L := by
  intro L
  induction L with
  | nil => intro _; simp [Nat.ofDigits]
  | cons d L ih =>
    intro h
    have hd : d < 10 := h d (List.mem_cons_self d L)
    have hL := ih fun x hx => h x (List.mem_cons_of_mem d hx)
    simp only [List.foldr_cons, hL, charDigit_digitChar hd, Nat.ofDigits_cons]
    omega

theorem decDigitsVal_natDecChars {n : Nat} (h : 0 < n) :
    decDigitsVal (natDecChars n) = some n := by
  have hlt : ∀ d ∈ Nat.digits 10 n, d < 10 := fun d hd =>
    Nat.digits_lt_base (by norm_num) hd
  have hne : Nat.digits 10 n ≠ [] := Nat.digits_ne_nil_iff_ne_zero.mpr h.ne'
  rw [natDecChars_eq]
  rw [decDigitsVal, if_pos]
  · congr 1
    rw [List.foldl_map, List.foldl_reverse]
    exact (foldr_charDigit_eq_ofDigits _ hlt).trans (Nat.ofDigits_digits 10 n)
  · constructor
    · simp [hne]
    · rw [List.all_eq_true]
      intro c hc
      obtain ⟨d, hd, rfl⟩ := List.mem_map.mp hc
      exact isDigit_digitChar (hlt d (List.mem_reverse.mp hd))

theorem natDecChars_head_digit {n : Nat} (h : 0 < n) :
    ∃ c rest, natDecChars n = c :: rest ∧ c.isDigit = true := by
  rcases hc : natDecChars n with _ | ⟨c, rest⟩
  · exfalso
    have hne : Nat.digits 10 n ≠ [] := Nat.digits_ne_nil_iff_ne_zero.mpr h.ne'
    rw [natDecChars_eq] at hc
    simp [hne] at hc
  · refine ⟨c, rest, rfl, ?_⟩
    have hmem : c ∈ natDecChars n := by rw [hc]; exact List.mem_cons_self c rest
    rw [natDecChars_eq] at hmem
    obtain ⟨d, hd, rfl⟩ := List.mem_map.mp hmem
    exact isDigit_digitChar (Nat.digits_lt_base (by norm_num) (List.mem_reverse.mp hd))

theorem i64_from_str_natDecChars {n : Nat} (h0 : 0 < n) (h1 : (n : Int) ≤ I64_MAX) :
    i64_from_str (String.mk (natDecChars n)) = some (n : Int) := by
  obtain ⟨c, rest, hcr, hdig⟩ := natDecChars_head_digit h0
  have hcm : c ≠ '-' := by rintro rfl; exact absurd hdig (by decide)
  have hcp : c ≠ '+' := by rintro rfl; exact absurd hdig (by decide)
  have h2 : decDigitsVal (c :: rest) = some n := hcr ▸ decDigitsVal_natDecChars h0
  have h3 : I64_MIN ≤ (n : Int) := le_trans (by norm_num [I64_MIN]) (Int.ofNat_nonneg n)
  simp [i64_from_str, hcr, hcm, hcp, h2, i64_inRange, h1, h3]

theorem i64_from_str_negDecChars {n : Nat} (h0 : 0 < n) (h1 : I64_MIN ≤ -(n : Int)) :
    i64_from_str (String.mk ('-' :: natDecChars n)) = some (-(n : Int)) := by
  have h2 : decDigitsVal (natDecChars n) = some n := decDigitsVal_natDecChars h0
  have h3 : -(n : Int) ≤ I64_MAX :=
    le_trans (by omega : -(n : Int) ≤ 0) (by norm_num [I64_MAX])
  simp [i64_from_str, h2, i64_inRange, h1, h3]

/-! ### Characterizations of `from_str` by its first strategy -/

/-- When the input parses as an `i64`, `from_str` is decided by the
seconds/milliseconds classification, falling back to the calendar strategy
when the instant construction fails. -/
theorem from_str_of_i64 {s : String} {n : Int} (h : i64_from_str s = some n) :
    from_str s =
      match (if n < S_TO_MS_CUTOFF then timestamp_opt n 0 else timestamp_millis_opt n) with
      | some t => Except.ok t
      | none =>
        match fromStrFallback s with
        | some t => Except.ok t
        | none => Except.error (Error.InvalidTimestamp s) := by
  rw [from_str, intAttempt, h, Option.some_bind]
  cases hc : (if n < S_TO_MS_CUTOFF then timestamp_opt n 0 else timestamp_millis_opt n) with
  | some t => rfl
  | none => cases hf : fromStrFallback s <;> simp [Option.orElse, hf]

/-- When the input does not parse as an `i64`, `from_str` is decided by the
calendar strategy. -/
theorem from_str_of_no_i64 {s : String} (h : i64_from_str s = none) :
    from_str s =
      match fromStrFallback s with
      | some t => Except.ok t
      | none => Except.error (Error.InvalidTimestamp s) := by
  rw [from_str, intAttempt, h, Option.none_bind]
  cases hf : fromStrFallback s <;> simp [Option.orElse, hf]

/-! ### Properties of `replaceAll` (Rust's `str::replace`) -/

/-- Replacing a pattern that does not occur is the identity. -/
theorem replaceAllAux_of_not_contains (p : Char) (ps rep : List Char) :
    ∀ fuel l, containsSub (p :: ps) l = false → replaceAllAux p ps rep fuel l = l := by
  intro fuel
  induction fuel with
  | zero => intro l _; rfl
  | succ fuel ih =>
    intro l hl
    cases l with
    | nil => rfl
    | cons c rest =>
      rw [containsSub, Bool.or_eq_false_iff] at hl
      obtain ⟨h1, h2⟩ := hl
      have h1' : ¬((p :: ps).isPrefixOf (c :: rest) = true) := by simp [h1]
      rw [replaceAllAux, if_neg h1', ih rest h2]

/-- A list with no character in common with `rep` that is a prefix of a
`replaceAllAux` output is already a prefix of the input. -/
theorem isPrefixOf_eq_true_of_replaceAllAux {p : Char} {ps rep : List Char}
    (hrep : rep ≠ []) :
    ∀ (fuel : Nat) (l q : List Char), (∀ c ∈ q, c ∉ rep) →
      q.isPrefixOf (replaceAllAux p ps rep fuel l) = true → q.isPrefixOf l = true := by
  intro fuel
  induction fuel with
  | zero => intro l q _ h; exact h
  | succ fuel ih =>
    intro l q hq h
    cases l with
    | nil => exact h
    | cons c rest =>
      rw [replaceAllAux] at h
      by_cases hpf : (p :: ps).isPrefixOf (c :: rest) = true
      · rw [if_pos hpf] at h
        cases q with
        | nil => simp [List.isPrefixOf]
        | cons q0 q' =>
          exfalso
          cases rep with
          | nil => exact hrep rfl
          | cons r rep' =>
            rw [List.cons_append] at h
            simp only [List.isPrefixOf, Bool.and_eq_true, beq_iff_eq] at h
            exact hq q0 (List.mem_cons_self q0 q') (h.1 ▸ List.mem_cons_self r rep')
      · rw [if_neg hpf] at h
        cases q with
        | nil => simp [List.isPrefixOf]
        | cons q0 q' =>
          simp only [List.isPrefixOf, Bool.and_eq_true, beq_iff_eq] at h ⊢
          exact ⟨h.1, ih rest q' (fun c hc => hq c (List.mem_cons_of_mem q0 hc)) h.2⟩

/-- Prepending text disjoint from a nonempty pattern does not add occurrences. -/
theorem containsSub_append_of_disjoint (pat : List Char) (hne : pat ≠ []) :
    ∀ rep2, (∀ c ∈ pat, c ∉ rep2) → ∀ R,
      containsSub pat (rep2 ++ R) = containsSub pat R := by
  intro rep2
  induction rep2 with
  | nil => intro _ R; rfl
  | cons r rep2' ih =>
    intro hd R
    rw [List.cons_append, containsSub]
    have h1 : pat.isPrefixOf (r :: (rep2' ++ R)) = false := by
      cases pat with
      | nil => exact absurd rfl hne
      | cons x xs =>
        have hxr : x ≠ r := fun hh =>
          hd x (List.mem_cons_self x xs) (hh ▸ List.mem_cons_self r rep2')
        simp [List.isPrefixOf, hxr]
    rw [h1, Bool.false_or, ih fun c hc hm => hd c hc (List.mem_cons_of_mem r hm)]

/-- A pattern absent from a list is absent from all its suffixes. -/
theorem containsSub_drop (pat : List Char) :
    ∀ n l, containsSub pat l = false → containsSub pat (List.drop n l) = false := by
  intro n
  induction n with
  | zero => intro l h; exact h
  | succ n ih =>
    intro l h
    cases l with
    | nil => exact h
    | cons c rest =>
      rw [List.drop_succ_cons]
      rw [containsSub, Bool.or_eq_false_iff] at h
      exact ih rest h.2

/-- Replacing a nonempty pattern by text disjoint from it leaves no occurrence
of the pattern in the output. -/
theorem containsSub_replaceAllAux_self {p : Char} {ps rep : List Char}
    (hrep : rep ≠ []) (hd : ∀ c ∈ (p :: ps), c ∉ rep) :
    ∀ fuel l, l.length ≤ fuel →
      containsSub (p :: ps) (replaceAllAux p ps rep fuel l) = false := by
  intro fuel
  induction fuel with
  | zero =>
    intro l hl
    have : l = [] := List.eq_nil_of_length_eq_zero (Nat.le_zero.mp hl)
    subst this
    rfl
  | succ fuel ih =>
    intro l hl
    cases l with
    | nil => rfl
    | cons c rest =>
      rw [replaceAllAux]
      by_cases hpf : (p :: ps).isPrefixOf (c :: rest) = true
      · rw [if_pos hpf,
          containsSub_append_of_disjoint (p :: ps) (List.cons_ne_nil p ps) rep hd]
        refine ih (rest.drop ps.length) ?_
        have := List.length_drop ps.length rest
        simp only [List.length_cons] at hl
        omega
      · rw [if_neg hpf, containsSub]
        have h2 := ih rest (by simp only [List.length_cons] at hl; omega)
        cases hx : (p :: ps).isPrefixOf (c :: replaceAllAux p ps rep fuel rest) with
        | false => rw [h2]; rfl
        | true =>
          exfalso
          simp only [List.isPrefixOf, Bool.and_eq_true, beq_iff_eq] at hx
          have hps : ps.isPrefixOf rest = true :=
            isPrefixOf_eq_true_of_replaceAllAux hrep fuel rest ps
              (fun c hc => hd c (List.mem_cons_of_mem p hc)) hx.2
          exact hpf (by simp [List.isPrefixOf, hx.1, hps])

/-- Replacing one pattern cannot create an occurrence of another nonempty
pattern disjoint from the replacement text. -/
theorem containsSub_replaceAllAux_other {p : Char} {ps rep : List Char}
    (pat2 : List Char) (hrep : rep ≠ []) (hne : pat2 ≠ [])
    (hd : ∀ c ∈ pat2, c ∉ rep) :
    ∀ fuel l, l.length ≤ fuel → containsSub pat2 l = false →
      containsSub pat2 (replaceAllAux p ps rep fuel l) = false := by
  intro fuel
  induction fuel with
  | zero =>
    intro l hl h
    have : l = [] := List.eq_nil_of_length_eq_zero (Nat.le_zero.mp hl)
    subst this
    exact h
  | succ fuel ih =>
    intro l hl h
    cases l with
    | nil => exact h
    | cons c rest =>
      rw [containsSub, Bool.or_eq_false_iff] at h
      obtain ⟨hnp, hrest⟩ := h
      rw [replaceAllAux]
      by_cases hpf : (p :: ps).isPrefixOf (c :: rest) = true
      · rw [if_pos hpf, containsSub_append_of_disjoint pat2 hne rep hd]
        refine ih (rest.drop ps.length) ?_ (containsSub_drop pat2 ps.length rest hrest)
        have := List.length_drop ps.length rest
        simp only [List.length_cons] at hl
        omega
      · rw [if_neg hpf, containsSub]
        have h2 := ih rest (by simp only [List.length_cons] at hl; omega) hrest
        cases hx : pat2.isPrefixOf (c :: replaceAllAux p ps rep fuel rest) with
        | false => rw [h2]; rfl
        | true =>
          exfalso
          cases pat2 with
          | nil => exact hne rfl
          | cons x xs =>
            simp only [List.isPrefixOf, Bool.and_eq_true, beq_iff_eq] at hx
            have hxs : xs.isPrefixOf rest = true :=
              isPrefixOf_eq_true_of_replaceAllAux hrep fuel rest xs
                (fun c hc => hd c (List.mem_cons_of_mem x hc)) hx.2
            rw [List.isPrefixOf] at hnp
            simp [hx.1, hxs] at hnp

theorem i64_from_str_intDecString_pos {n : Int} (h0 : 0 < n) (h1 : n ≤ I64_MAX) :
    i64_from_str (intDecString n) = some n := by
  rw [intDecString, if_neg h0.ne', if_neg (not_lt.mpr h0.le)]
  have hn : (n.natAbs : Int) = n := Int.natAbs_of_nonneg h0.le
  have h := i64_from_str_natDecChars (n := n.natAbs)
    (Int.natAbs_pos.mpr h0.ne') (by rw [hn]; exact h1)
  rw [hn] at h
  exact h

theorem i64_from_str_intDecString_neg {n : Int} (h0 : n < 0) (h1 : I64_MIN ≤ n) :
    i64_from_str (intDecString n) = some n := by
  rw [intDecString, if_neg h0.ne, if_pos h0]
  have hn : (n.natAbs : Int) = -n := by omega
  have h := i64_from_str_negDecChars (n := n.natAbs)
    (Int.natAbs_pos.mpr h0.ne) (by rw [hn]; omega)
  rw [hn, neg_neg] at h
  exact h

/-- `timestamp_millis()` of a `Timestamp`: the instant in whole milliseconds
since the epoch (floor). -/
def Timestamp.millis (t : Timestamp) : Int := t.secs * 1000 + (t.nanos / 1000000 : Nat)

/-- The strict chronological order underlying the derived `Ord`/`PartialOrd`
of `struct Timestamp` (lexicographic on seconds, then subsecond). -/
def Timestamp.instantLt (a b : Timestamp) : Prop :=
  a.secs < b.secs ∨ (a.secs = b.secs ∧ a.nanos < b.nanos)

/-- The classification rule as C3 words it: by the absolute value of the
parsed integer. Stated from the claim's words, to be compared with the
code's behaviour: whenever parsing succeeds overall, a magnitude below the
cutoff must have been decoded as seconds and a magnitude at or above the
cutoff as milliseconds. -/
def classifiedByMagnitude : Prop :=
  ∀ (s : String) (n : Int) (t : Timestamp), i64_from_str s = some n →
    from_str s = Except.ok t →
    (((n.natAbs : Int) < S_TO_MS_CUTOFF → timestamp_opt n 0 = some t) ∧
     (S_TO_MS_CUTOFF ≤ (n.natAbs : Int) → timestamp_millis_opt n = some t))

/-! ### Claims -/

/-- **C1**: for every integer `n` with `0 ≤ n < 1_000_000_000_000`, parsing
the decimal string of `n` with `Timestamp::from_str` succeeds and returns a
`Timestamp` whose epoch-seconds value is `n` and whose subsecond (nanosecond)
component is zero. -/
theorem seconds_decimal_roundtrip (n : Int) (h0 : 0 ≤ n) (h1 : n < S_TO_MS_CUTOFF) :
    from_str (intDecString n) = Except.ok ⟨n, 0⟩ := by
  rcases h0.eq_or_lt with hz | hp
  · rw [← hz]
    rfl
  · have hi : i64_from_str (intDecString n) = some n :=
      i64_from_str_intDecString_pos hp
        (by simp only [S_TO_MS_CUTOFF] at h1; simp only [I64_MAX]; omega)
    rw [from_str_of_i64 hi, if_pos h1]
    have ht : timestamp_opt n 0 = some ⟨n, 0⟩ := by
      rw [timestamp_opt, if_pos]
      refine ⟨?_, ?_, by norm_num⟩ <;>
        simp only [S_TO_MS_CUTOFF] at h1 <;>
        simp only [MIN_TIMESTAMP_SECS, MAX_TIMESTAMP_SECS] <;> omega
    rw [ht]

theorem seconds_decimal_roundtrip_witness :
    (0 : Int) ≤ 1692946034 ∧ (1692946034 : Int) < S_TO_MS_CUTOFF ∧
    from_str (intDecString 1692946034) = Except.ok ⟨1692946034, 0⟩ :=
  ⟨by norm_num, by decide,
    seconds_decimal_roundtrip 1692946034 (by norm_num) (by decide)⟩

/-- **C2 (amended)**: the claim as stated fails for `i64` values beyond
chrono's representable range; for every `n` with
`1_000_000_000_000 ≤ n ≤ MAX_TIMESTAMP_MS` (chrono's largest epoch
millisecond), parsing the decimal string of `n` succeeds with the instant
`n` milliseconds after the epoch, and its floor in milliseconds equals `n`. -/
theorem millis_decimal_roundtrip (n : Int) (h0 : S_TO_MS_CUTOFF ≤ n)
    (h1 : n ≤ MAX_TIMESTAMP_MS) :
    from_str (intDecString n) =
      Except.ok ⟨n / 1000, (n % 1000).toNat * 1000000⟩ ∧
    Timestamp.millis ⟨n / 1000, (n % 1000).toNat * 1000000⟩ = n := by
  simp only [S_TO_MS_CUTOFF] at h0
  simp only [MAX_TIMESTAMP_MS] at h1
  constructor
  · have hp : (0 : Int) < n := by omega
    have hi : i64_from_str (intDecString n) = some n :=
      i64_from_str_intDecString_pos hp (by simp only [I64_MAX]; omega)
    rw [from_str_of_i64 hi, if_neg (by simp only [S_TO_MS_CUTOFF]; omega)]
    have hb : MIN_TIMESTAMP_SECS ≤ n / 1000 ∧ n / 1000 ≤ MAX_TIMESTAMP_SECS ∧
        (n % 1000).toNat * 1000000 < 2000000000 := by
      simp only [MIN_TIMESTAMP_SECS, MAX_TIMESTAMP_SECS]
      omega
    rw [timestamp_millis_opt, timestamp_opt, if_pos hb]
  · rw [Timestamp.millis]
    simp only
    rw [Nat.mul_div_cancel _ (by norm_num : 0 < 1000000)]
    omega

theorem millis_decimal_roundtrip_witness :
    from_str (intDecString 1692946034632) =
      Except.ok ⟨(1692946034632 : Int) / 1000,
        ((1692946034632 : Int) % 1000).toNat * 1000000⟩ :=
  (millis_decimal_roundtrip 1692946034632 (by decide) (by decide)).1

/-- **C2 (counterexample)**: `i64::MAX` is at least the cutoff, so C2 as
stated requires its parse to succeed as milliseconds, but the instant is
beyond chrono's range, the calendar fallback fails too, and `from_str`
returns the invalid-timestamp error. -/
theorem millis_roundtrip_counterexample :
    S_TO_MS_CUTOFF ≤ (9223372036854775807 : Int) ∧
    i64_from_str "9223372036854775807" = some 9223372036854775807 ∧
    from_str "9223372036854775807" =
      Except.error (Error.InvalidTimestamp "9223372036854775807") :=
  ⟨by decide, rfl, rfl⟩

/-- **C3 (counterexample)**: the classification is not by absolute value:
`"-1000000000000"` has magnitude at the cutoff, yet the code decodes it as
seconds, not as the millisecond interpretation would demand. -/
theorem magnitude_classification_counterexample : ¬ classifiedByMagnitude := by
  intro h
  have h1 : from_str "-1000000000000" = Except.ok ⟨-1000000000000, 0⟩ := rfl
  have h2 : i64_from_str "-1000000000000" = some (-1000000000000) := rfl
  have h3 := (h _ _ _ h2 h1).2 (by decide)
  exact absurd h3 (by decide)

/-- **C3 (amended)**: `Timestamp::from_str` classifies a parsed integer by the
signed comparison `n < 1_000_000_000_000`: below the cutoff it attempts the
seconds interpretation, at or above it the milliseconds interpretation, in
both cases falling back to the calendar strategy when construction fails. -/
theorem signed_cutoff_classification (s : String) (n : Int)
    (h : i64_from_str s = some n) :
    (n < S_TO_MS_CUTOFF → from_str s =
      match timestamp_opt n 0 with
      | some t => Except.ok t
      | none =>
        match fromStrFallback s with
        | some t => Except.ok t
        | none => Except.error (Error.InvalidTimestamp s)) ∧
    (S_TO_MS_CUTOFF ≤ n → from_str s =
      match timestamp_millis_opt n with
      | some t => Except.ok t
      | none =>
        match fromStrFallback s with
        | some t => Except.ok t
        | none => Except.error (Error.InvalidTimestamp s)) := by
  constructor
  · intro hlt
    rw [from_str_of_i64 h, if_pos hlt]
  · intro hge
    rw [from_str_of_i64 h, if_neg (not_lt.mpr hge)]

theorem signed_cutoff_classification_witness :
    from_str "5" =
      match timestamp_opt 5 0 with
      | some t => Except.ok t
      | none =>
        match fromStrFallback "5" with
        | some t => Except.ok t
        | none => Except.error (Error.InvalidTimestamp "5") :=
  (signed_cutoff_classification "5" 5 rfl).1 (by decide)

/-- **C4**: whenever all decoding strategies fail, `Timestamp::from_str`
returns the `InvalidTimestamp` variant carrying the exact original input
string; in particular for the empty string and for `"not-a-timestamp"`
(the model is a total function, so no panic is possible). -/
theorem invalid_input_error_verbatim :
    (∀ (s : String) (e : Error), from_str s = Except.error e →
      e = Error.InvalidTimestamp s) ∧
    from_str "" = Except.error (Error.InvalidTimestamp "") ∧
    from_str "not-a-timestamp" =
      Except.error (Error.InvalidTimestamp "not-a-timestamp") ∧
    from_str "CET 10" = Except.error (Error.InvalidTimestamp "CET 10") := by
  refine ⟨?_, rfl, rfl, rfl⟩
  intro s e h
  rw [from_str] at h
  cases hopt : (intAttempt s).orElse (fun _ => fromStrFallback s) with
  | some t => rw [hopt] at h; exact absurd h (by simp)
  | none =>
    rw [hopt] at h
    injection h with h'
    exact h'.symm

theorem invalid_input_error_verbatim_witness :
    Error.InvalidTimestamp "not-a-timestamp" =
      Error.InvalidTimestamp "not-a-timestamp" :=
  invalid_input_error_verbatim.1 "not-a-timestamp"
    (Error.InvalidTimestamp "not-a-timestamp") rfl

/-- **C5**: an input that parses as an integer whose seconds/milliseconds
construction fails (out of chrono's range) falls through to the calendar
strategy, and when that also fails the result is the `InvalidTimestamp`
error — never a crash (the model is total). -/
theorem integer_out_of_range_falls_through (s : String) (n : Int)
    (h : i64_from_str s = some n)
    (hfail : (if n < S_TO_MS_CUTOFF then timestamp_opt n 0
              else timestamp_millis_opt n) = none) :
    from_str s =
      match fromStrFallback s with
      | some t => Except.ok t
      | none => Except.error (Error.InvalidTimestamp s) := by
  rw [from_str_of_i64 h, hfail]

theorem integer_out_of_range_falls_through_witness :
    from_str "9223372036854775806" =
      match fromStrFallback "9223372036854775806" with
      | some t => Except.ok t
      | none => Except.error (Error.InvalidTimestamp "9223372036854775806") :=
  integer_out_of_range_falls_through "9223372036854775806" 9223372036854775806
    rfl (by decide)

/-- **C6**: every negative integer `n` with `|n| < 1_000_000_000_000` parses
as `n` seconds before the epoch; it does not fail. -/
theorem negative_seconds_roundtrip (n : Int) (h0 : -S_TO_MS_CUTOFF < n)
    (h1 : n < 0) :
    from_str (intDecString n) = Except.ok ⟨n, 0⟩ := by
  have hi : i64_from_str (intDecString n) = some n :=
    i64_from_str_intDecString_neg h1
      (by simp only [S_TO_MS_CUTOFF] at h0; simp only [I64_MIN]; omega)
  rw [from_str_of_i64 hi,
    if_pos (lt_trans h1 (by norm_num [S_TO_MS_CUTOFF]))]
  have ht : timestamp_opt n 0 = some ⟨n, 0⟩ := by
    rw [timestamp_opt, if_pos]
    refine ⟨?_, ?_, by norm_num⟩ <;>
      simp only [S_TO_MS_CUTOFF] at h0 <;>
      simp only [MIN_TIMESTAMP_SECS, MAX_TIMESTAMP_SECS] <;> omega
  rw [ht]

theorem negative_seconds_roundtrip_witness :
    -S_TO_MS_CUTOFF < (-5 : Int) ∧ (-5 : Int) < 0 ∧
    from_str (intDecString (-5)) = Except.ok ⟨-5, 0⟩ :=
  ⟨by decide, by norm_num,
    negative_seconds_roundtrip (-5) (by decide) (by norm_num)⟩

/-- **C7**: parsing `"Fri Aug 25 08:47:09 AM CEST 2023"` succeeds with the
UTC instant 2023-08-25T06:47:09Z (epoch seconds 1692946029); the `CEST`
occurrence is first rewritten to `+0200`. -/
theorem cest_calendar_example :
    from_str "Fri Aug 25 08:47:09 AM CEST 2023" = Except.ok ⟨1692946029, 0⟩ ∧
    tz_name_to_offset "Fri Aug 25 08:47:09 AM CEST 2023" =
      "Fri Aug 25 08:47:09 AM +0200 2023" :=
  ⟨rfl, rfl⟩

/-- **C8**: `Timestamp::from_str` is a pure, deterministic function of its
input: identical inputs give equal results, and the equality/order contract
on `Timestamp` is total (trichotomy of the chronological order). -/
theorem parse_deterministic :
    (∀ s₁ s₂ : String, s₁ = s₂ → from_str s₁ = from_str s₂) ∧
    (∀ a b : Timestamp, Timestamp.instantLt a b ∨ a = b ∨ Timestamp.instantLt b a) := by
  refine ⟨fun s₁ s₂ h => h ▸ rfl, ?_⟩
  intro a b
  rcases lt_trichotomy a.secs b.secs with h | h | h
  · exact Or.inl (Or.inl h)
  · rcases lt_trichotomy a.nanos b.nanos with h2 | h2 | h2
    · exact Or.inl (Or.inr ⟨h, h2⟩)
    · exact Or.inr (Or.inl (by cases a; cases b; simp_all))
    · exact Or.inr (Or.inr (Or.inr ⟨h.symm, h2⟩))
  · exact Or.inr (Or.inr (Or.inl h))

theorem parse_deterministic_witness :
    from_str "1692946034" = from_str "1692946034" :=
  parse_deterministic.1 "1692946034" "1692946034" rfl

/-- **C9**: a parsed negative integer is always interpreted as epoch seconds
(the cutoff comparison is signed); in particular `"-2000000000000"` decodes
as -2_000_000_000_000 epoch seconds, not as milliseconds. -/
theorem negative_always_seconds :
    (∀ (s : String) (n : Int), i64_from_str s = some n → n < 0 →
      from_str s =
        match timestamp_opt n 0 with
        | some t => Except.ok t
        | none =>
          match fromStrFallback s with
          | some t => Except.ok t
          | none => Except.error (Error.InvalidTimestamp s)) ∧
    from_str "-2000000000000" = Except.ok ⟨-2000000000000, 0⟩ := by
  refine ⟨?_, rfl⟩
  intro s n h hneg
  rw [from_str_of_i64 h,
    if_pos (lt_trans hneg (by norm_num [S_TO_MS_CUTOFF]))]

theorem negative_always_seconds_witness :
    from_str "-5" = Except.ok ⟨-5, 0⟩ :=
  (negative_always_seconds.1 "-5" (-5) rfl (by norm_num)).trans rfl

/-- **C10**: `tz_name_to_offset` is idempotent — its output never contains
the substrings `"CET"` or `"CEST"`, so applying it twice equals applying it
once. -/
theorem tz_substitution_idempotent (s : String) :
    tz_name_to_offset (tz_name_to_offset s) = tz_name_to_offset s ∧
    containsSub CET (tz_name_to_offset s).data = false ∧
    containsSub CEST (tz_name_to_offset s).data = false := by
  have hd1 : ∀ c ∈ CET, c ∉ "+0100".data := by decide
  have hd2 : ∀ c ∈ CEST, c ∉ "+0200".data := by decide
  have hd3 : ∀ c ∈ CET, c ∉ "+0200".data := by decide
  have hr1 : "+0100".data ≠ [] := by decide
  have hr2 : "+0200".data ≠ [] := by decide
  have h1 : containsSub CET (replaceAll CET "+0100".data s.data) = false := by
    show containsSub ('C' :: ['E', 'T'])
      (replaceAllAux 'C' ['E', 'T'] "+0100".data s.data.length s.data) = false
    exact containsSub_replaceAllAux_self hr1 hd1 s.data.length s.data le_rfl
  have h2 : containsSub CET (tz_name_to_offset s).data = false := by
    show containsSub CET
      (replaceAllAux 'C' ['E', 'S', 'T'] "+0200".data
        (replaceAll CET "+0100".data s.data).length
        (replaceAll CET "+0100".data s.data)) = false
    exact containsSub_replaceAllAux_other CET hr2 (by decide) hd3 _ _ le_rfl h1
  have h3 : containsSub CEST (tz_name_to_offset s).data = false := by
    show containsSub ('C' :: ['E', 'S', 'T'])
      (replaceAllAux 'C' ['E', 'S', 'T'] "+0200".data
        (replaceAll CET "+0100".data s.data).length
        (replaceAll CET "+0100".data s.data)) = false
    exact containsSub_replaceAllAux_self hr2 hd2 _ _ le_rfl
  refine ⟨?_, h2, h3⟩
  show String.mk (replaceAll CEST "+0200".data
      (replaceAll CET "+0100".data (tz_name_to_offset s).data)) = tz_name_to_offset s
  have e1 : replaceAll CET "+0100".data (tz_name_to_offset s).data =
      (tz_name_to_offset s).data :=
    replaceAllAux_of_not_contains 'C' ['E', 'T'] "+0100".data _ _ h2
  have e2 : replaceAll CEST "+0200".data (tz_name_to_offset s).data =
      (tz_name_to_offset s).data :=
    replaceAllAux_of_not_contains 'C' ['E', 'S', 'T'] "+0200".data _ _ h3
  rw [e1, e2]

end CliHelpers
